import Mathlib

/-!
Shallow embedding of the evidence pool (`evidence/pool.go`) of this
repository, together with the parts of its collaborators the pool's
behaviour depends on.  Pure data is embedded as Lean structures; Go's
mutable pool is threaded explicitly as a `Pool` value; Go functions that
can panic are embedded as functions into `Option`/a result type with an
explicit abnormal constructor.  Machine integers (`int64`,
`time.Duration` in nanoseconds) are embedded as `Int`; none of the
arithmetic here can overflow in the scenarios the statements quantify
over, and the source relies on ordinary signed comparison only.

The evidence store (`evidence/store.go`) is not part of the sources; its
operations used by `pool.go` are modelled from the specification's
description of the EvidenceStore and are marked as such below.
-/

/-- `types.EvidenceParams`: the evidence consensus parameters the pool
reads (`MaxAgeNumBlocks` in blocks, `MaxAgeDuration` in nanoseconds). -/
structure EvidenceParams where
  MaxAgeNumBlocks : Int
  MaxAgeDuration : Int
deriving DecidableEq

/-- The slice of `types.ConsensusParams` the pool reads. -/
structure ConsensusParams where
  Evidence : EvidenceParams
deriving DecidableEq

/-- The slice of `sm.State` the pool reads: last committed block height,
last committed block time (nanoseconds since epoch), and the consensus
parameters. -/
structure State where
  LastBlockHeight : Int
  LastBlockTime : Int
  ConsensusParams : ConsensusParams
deriving DecidableEq

/-- The capability set of the `types.Evidence` interface as the pool uses
it: `Height()`, `Time()`, `Address()`, `Hash()`; `isLunatic` records
whether the dynamic type is `*types.LunaticValidatorEvidence` (the one
variant for which `AddEvidence` fetches a block header). -/
structure EvidenceData where
  Height : Int
  Time : Int
  Address : String
  Hash : String
  isLunatic : Bool
deriving DecidableEq

/-- An evidence value submitted to `AddEvidence`: either an atomic piece,
or composite (`types.CompositeEvidence`, e.g. conflicting-headers
evidence).  `pieces` is the list `ce.Split(...)` returns; `Split` lives in
the external `types` package, so its output is a parameter of the model. -/
inductive Evidence where
  | atomic (d : EvidenceData)
  | composite (d : EvidenceData) (pieces : List EvidenceData)
deriving DecidableEq

/-- The common metadata of an evidence value (the receiver of `Height()`
etc. in the source). -/
def Evidence.data : Evidence → EvidenceData
  | .atomic d => d
  | .composite d _ => d

/-- `types.Validator`: address and voting power. -/
structure Validator where
  Address : String
  VotingPower : Int
deriving DecidableEq

/-- `types.ValidatorSet`: the validator list. -/
structure ValidatorSet where
  Validators : List Validator
deriving DecidableEq

/-- `types.ValidatorSet.GetByAddress`: linear search by address.  The Go
method returns `(index, *Validator)` with a nil pointer when the address
is absent; the model returns `none` in that case. -/
def GetByAddress (vals : ValidatorSet) (address : String) : Option Validator :=
  vals.Validators.find? (fun v => v.Address == address)

/-- `types.Header` as far as the pool passes it around (an opaque token
fetched from the block store). -/
structure Header where
  HeaderHeight : Int
deriving DecidableEq

/-- Modelled from the spec: one record of the store's pending index,
"`pending/<priority-descending>/<hash>` → serialized evidence". -/
structure StoreEntry where
  ev : EvidenceData
  priority : Int
deriving DecidableEq

/-- Modelled from the spec: the EvidenceStore (not under the sources) has
"three logical namespaces": the ordered pending index, the committed
marker set, and the out-queue.  The pending index is kept ordered by
descending priority with ties in insertion order. -/
structure Store where
  pending : List StoreEntry
  committed : List String
  outqueue : List String
deriving DecidableEq

/-- Modelled from the spec: `Has(evidence) -> bool` is a "digest existence
check across all namespaces". -/
def Store.Has (s : Store) (evidence : EvidenceData) : Bool :=
  s.pending.any (fun e => e.ev.Hash == evidence.Hash) ||
  s.committed.contains evidence.Hash ||
  s.outqueue.contains evidence.Hash

/-- Insertion into the pending index: the new entry goes after every entry
of priority at least its own, so the index is ordered by descending
priority with ties broken by insertion order. -/
def insertPending (e : StoreEntry) : List StoreEntry → List StoreEntry
  | [] => [e]
  | x :: xs =>
    if e.priority ≤ x.priority then x :: insertPending e xs else e :: x :: xs

/-- Modelled from the spec: `Store.AddEvidence(evidence, priority)` "writes
pending-index entry + out-queue entry atomically; duplicate digest is an
error, not silently ignored". -/
def Store.addEvidence (s : Store) (evidence : EvidenceData) (priority : Int) :
    Except Unit Store :=
  if Store.Has s evidence then Except.error ()
  else Except.ok
    { s with
      pending := insertPending ⟨evidence, priority⟩ s.pending
      outqueue := evidence.Hash :: s.outqueue }

/-- Modelled from the spec: `Store.MarkEvidenceAsCommitted(evidence)` "adds
committed marker, removes pending-index entry". -/
def Store.MarkEvidenceAsCommitted (s : Store) (evidence : EvidenceData) : Store :=
  { s with
    committed := evidence.Hash :: s.committed
    pending := s.pending.filter (fun e => e.ev.Hash != evidence.Hash) }

/-- Modelled from the spec: `Store.PendingEvidence(maxNum)` reads the
ordered pending index; `maxNum = -1` (any negative) returns everything,
otherwise up to `maxNum` entries from the front. -/
def Store.PendingEvidence (s : Store) (maxNum : Int) : List EvidenceData :=
  if maxNum < 0 then s.pending.map (fun e => e.ev)
  else (s.pending.take maxNum.toNat).map (fun e => e.ev)

/-- Modelled from the spec: `Store.listEvidence(baseKeyPending, -1)` lists
every pending evidence entry (used by `NewPool` for startup recovery). -/
def Store.listEvidence (s : Store) : List EvidenceData :=
  s.pending.map (fun e => e.ev)

/-- `types.Block` as far as the pool reads it: `Height`, `Time`, and
`Evidence.Evidence` (the evidence list carried by the block). -/
structure Block where
  Height : Int
  Time : Int
  Evidence : List EvidenceData
deriving DecidableEq

/-- The pool's state (`Pool` in the source): the store, the concurrent
evidence list (`clist`, embedded as an insertion-ordered list), the
validator-activity map (`valToLastHeightMap`, embedded as an association
list from address to last active height), and the latest `sm.State`
snapshot. -/
structure Pool where
  store : Store
  evidenceList : List EvidenceData
  valToLastHeight : List (String × Int)
  state : State
deriving DecidableEq

/-- The external collaborators `pool.go` calls (`sm.LoadValidators`,
`store.BlockStore.LoadBlockMeta`, `sm.VerifyEvidence`,
`CompositeEvidence.VerifyComposite`), none of which are under the
sources.  `LoadValidators` mirrors Go's two-value return `(valSet, err)`:
the first component is `true` exactly when `err != nil` (on error the Go
value is typically a nil pointer; the model carries the returned set so
that code which reads it in an error branch can be stated at all). -/
structure Env where
  LoadValidators : Int → Bool × ValidatorSet
  LoadBlockMeta : Int → Option Header
  VerifyEvidence : State → EvidenceData → Option Header → Bool
  VerifyComposite : Header → ValidatorSet → Bool

/-- `Pool.IsExpired` (pool.go:248-256): evidence is expired when its
block-count age exceeds `MaxAgeNumBlocks` AND its duration age exceeds
`MaxAgeDuration`. -/
def IsExpired (state : State) (evidence : EvidenceData) : Bool :=
  let params := state.ConsensusParams.Evidence
  let ageDuration := state.LastBlockTime - evidence.Time
  let ageNumBlocks := state.LastBlockHeight - evidence.Height
  decide (ageNumBlocks > params.MaxAgeNumBlocks) &&
  decide (ageDuration > params.MaxAgeDuration)

/-- `evMapKey` (pool.go:258-260). -/
def evMapKey (ev : EvidenceData) : String := ev.Hash

/-- `Pool.removeEvidence` (pool.go:210-231): walk the evidence list and
remove every element that is in the committed-block map or is now too old
(conjunctive age test, mirroring the source's condition order). -/
def removeEvidence (height : Int) (lastBlockTime : Int) (params : EvidenceParams)
    (blockEvidenceMap : List String) (evidenceList : List EvidenceData) :
    List EvidenceData :=
  evidenceList.filter (fun ev =>
    let ageDuration := lastBlockTime - ev.Time
    let ageNumBlocks := height - ev.Height
    !(blockEvidenceMap.contains (evMapKey ev) ||
      (decide (ageDuration > params.MaxAgeDuration) &&
       decide (ageNumBlocks > params.MaxAgeNumBlocks))))

/-- `Pool.MarkEvidenceAsCommitted` (pool.go:195-208): mark every listed
evidence as committed in the store, then remove from the clist everything
committed or too old, reading the evidence parameters from the pool's
current state snapshot. -/
def MarkEvidenceAsCommitted (evpool : Pool) (height : Int) (lastBlockTime : Int)
    (evidence : List EvidenceData) : Pool :=
  let store2 := evidence.foldl (fun s ev => Store.MarkEvidenceAsCommitted s ev) evpool.store
  let blockEvidenceMap := evidence.map evMapKey
  let evidenceParams := evpool.state.ConsensusParams.Evidence
  { evpool with
    store := store2
    evidenceList :=
      removeEvidence height lastBlockTime evidenceParams blockEvidenceMap
        evpool.evidenceList }

/-- `Pool.cleanupValToLastHeight` (pool.go:233-246): compute the cutoff
`blockHeight - MaxAgeNumBlocks`; when it is at least 1, load the validator
set there, and — in the source, only inside the `err != nil` branch —
delete every map entry whose recorded height equals the cutoff for a
validator of the loaded set. -/
def cleanupValToLastHeight (env : Env) (evpool : Pool) (blockHeight : Int) : Pool :=
  let removeHeight := blockHeight - evpool.state.ConsensusParams.Evidence.MaxAgeNumBlocks
  if removeHeight ≥ 1 then
    let lv := env.LoadValidators removeHeight
    if lv.fst then
      { evpool with
        valToLastHeight :=
          lv.snd.Validators.foldl (fun m val =>
            match m.lookup val.Address with
            | some h =>
              if h = removeHeight then
                m.filter (fun kv => kv.fst != val.Address)
              else m
            | none => m) evpool.valToLastHeight }
    else evpool
  else evpool

/-- `Pool.Update` (pool.go:99-120): the sanity check panics (embedded as
`none`) when `state.LastBlockHeight != block.Height`, before any effect;
otherwise it replaces the state snapshot, marks the block's evidence
committed, and cleans up the activity map. -/
def Update (env : Env) (evpool : Pool) (block : Block) (state : State) : Option Pool :=
  if state.LastBlockHeight ≠ block.Height then none
  else
    let pool1 := { evpool with state := state }
    let pool2 := MarkEvidenceAsCommitted pool1 block.Height block.Time block.Evidence
    some (cleanupValToLastHeight env pool2 block.Height)

/-- Abnormal outcomes of `Pool.AddEvidence`, mirroring the source's error
values (ErrDatabase, ErrEvidenceAlreadyStored, the formatted errors for a
missing block meta, a failed validator load, a failed composite
verification and a failed evidence verification). -/
inductive AddError where
  | errDatabase
  | errEvidenceAlreadyStored
  | errNoBlockMeta (height : Int)
  | errLoadValidators (height : Int)
  | errVerifyComposite
  | errVerifyFailed
deriving DecidableEq

/-- Result of `Pool.AddEvidence` on the explicitly threaded pool: normal
return (`ok`/`err`, carrying the pool as mutated so far, since the Go code
mutates in place and does not roll back), or `nilDeref` for the
nil-pointer dereference `val.VotingPower` executes when `GetByAddress`
found no validator. -/
inductive AddResult where
  | ok (evpool : Pool)
  | err (e : AddError) (evpool : Pool)
  | nilDeref (evpool : Pool)
deriving DecidableEq

/-- Steps (1)-(4) of the `AddEvidence` loop body after the header fetch
(pool.go:171-189): verify, look up the accused validator for the
priority, persist, append to the clist. -/
def addEvidenceVerified (env : Env) (state : State) (valSet : ValidatorSet)
    (evpool : Pool) (ev : EvidenceData) (header : Option Header) : AddResult :=
  if env.VerifyEvidence state ev header then
    match GetByAddress valSet ev.Address with
    | none => AddResult.nilDeref evpool
    | some val =>
      match Store.addEvidence evpool.store ev val.VotingPower with
      | Except.error _ => AddResult.err AddError.errDatabase evpool
      | Except.ok store2 =>
        AddResult.ok
          { evpool with
            store := store2
            evidenceList := evpool.evidenceList ++ [ev] }
  else AddResult.err AddError.errVerifyFailed evpool

/-- One iteration of the `AddEvidence` loop (pool.go:152-190).  Note the
duplicate check calls `Store.Has` on `origEvidence` — the originally
submitted `evidence` — not on the loop variable `ev`, exactly as the
source does at pool.go:153. -/
def addEvidenceUnit (env : Env) (state : State) (origEvidence : EvidenceData)
    (valSet : ValidatorSet) (evpool : Pool) (ev : EvidenceData) : AddResult :=
  if Store.Has evpool.store origEvidence then
    AddResult.err AddError.errEvidenceAlreadyStored evpool
  else if ev.isLunatic then
    match env.LoadBlockMeta ev.Height with
    | none => AddResult.err (AddError.errNoBlockMeta ev.Height) evpool
    | some bm => addEvidenceVerified env state valSet evpool ev (some bm)
  else addEvidenceVerified env state valSet evpool ev none

/-- The `AddEvidence` loop over the unit list, stopping at (and returning)
the first abnormal result. -/
def addEvidenceList (env : Env) (state : State) (origEvidence : EvidenceData)
    (valSet : ValidatorSet) (evpool : Pool) : List EvidenceData → AddResult
  | [] => AddResult.ok evpool
  | ev :: rest =>
    match addEvidenceUnit env state origEvidence valSet evpool ev with
    | AddResult.ok pool2 => addEvidenceList env state origEvidence valSet pool2 rest
    | r => r

/-- `Pool.AddEvidence` (pool.go:122-193): snapshot the state, load the
validator set at the submitted evidence's height, split composite
evidence after verifying it against the stored block header, then process
the unit list. -/
def AddEvidence (env : Env) (evpool : Pool) (evidence : Evidence) : AddResult :=
  let state := evpool.state
  let lv := env.LoadValidators evidence.data.Height
  if lv.fst then
    AddResult.err (AddError.errLoadValidators evidence.data.Height) evpool
  else
    match evidence with
    | Evidence.atomic d => addEvidenceList env state d lv.snd evpool [d]
    | Evidence.composite d pieces =>
      match env.LoadBlockMeta d.Height with
      | none => AddResult.err (AddError.errNoBlockMeta d.Height) evpool
      | some bm =>
        if env.VerifyComposite bm lv.snd then
          addEvidenceList env state d lv.snd evpool pieces
        else AddResult.err AddError.errVerifyComposite evpool

/-- The startup-recovery loop of `NewPool` (pool.go:58-68): walk the listed
pending evidence; delete the pending record of each expired entry, push
each non-expired entry onto the evidence list. -/
def newPoolLoop (state : State) : Store → List EvidenceData → List EvidenceData →
    Store × List EvidenceData
  | store, evidenceList, [] => (store, evidenceList)
  | store, evidenceList, ev :: rest =>
    if IsExpired state ev then
      newPoolLoop state
        { store with pending := store.pending.filter (fun e => e.ev.Hash != ev.Hash) }
        evidenceList rest
    else newPoolLoop state store (evidenceList ++ [ev]) rest

/-- `NewPool` (pool.go:42-71) as far as the store and the evidence list are
concerned: list the pending evidence and run the recovery loop.  The
`valToLastHeight` map (built by `buildValToLastHeightMap`) is passed in,
as no statement here depends on its construction. -/
def NewPool (state : State) (store : Store) (valMap : List (String × Int)) : Pool :=
  let evList := Store.listEvidence store
  let r := newPoolLoop state store [] evList
  { store := r.fst
    evidenceList := r.snd
    valToLastHeight := valMap
    state := state }

/-- `Pool.PendingEvidence` (pool.go:86-90): delegates to the store. -/
def PendingEvidence (evpool : Pool) (maxNum : Int) : List EvidenceData :=
  Store.PendingEvidence evpool.store maxNum

/-! ### Concrete fixtures used by closed witnesses -/

/-- A state with `LastBlockHeight = 100`, `LastBlockTime = 1000`,
`MaxAgeNumBlocks = 10`, `MaxAgeDuration = 50`. -/
def s1 : State := ⟨100, 1000, ⟨⟨10, 50⟩⟩⟩

/-- Evidence whose block-count age (95) exceeds `MaxAgeNumBlocks` but whose
duration age (20) is within `MaxAgeDuration`. -/
def ev1 : EvidenceData := ⟨5, 980, "addrA", "h1", false⟩

/-- A one-validator set. -/
def valSetW : ValidatorSet := ⟨[⟨"addrA", 7⟩]⟩

/-- An environment whose loads always succeed and whose verifications
always pass. -/
def envTriv : Env :=
  { LoadValidators := fun _ => (false, valSetW)
    LoadBlockMeta := fun _ => some ⟨0⟩
    VerifyEvidence := fun _ _ _ => true
    VerifyComposite := fun _ _ => true }

/-- The empty store. -/
def storeEmpty : Store := ⟨[], [], []⟩

/-- An empty pool at state `s1`. -/
def poolTriv : Pool := ⟨storeEmpty, [], [], s1⟩

/-- An evidence-free block at height 100. -/
def blockW100 : Block := ⟨100, 1000, []⟩

/-- An evidence-free block at height 99 (mismatching `s1`). -/
def blockW99 : Block := ⟨99, 1000, []⟩

/-! ### C1: conjunctive expiry -/

/-- C1: `IsExpired` returns `true` iff both the duration age exceeds
`MaxAgeDuration` and the block-count age exceeds `MaxAgeNumBlocks`; in
particular a unit old by block count but recent by duration is not
expired. -/
theorem isExpired_conjunctive (state : State) (ev : EvidenceData) :
    (IsExpired state ev = true ↔
      (state.LastBlockTime - ev.Time > state.ConsensusParams.Evidence.MaxAgeDuration ∧
       state.LastBlockHeight - ev.Height > state.ConsensusParams.Evidence.MaxAgeNumBlocks)) ∧
    (state.LastBlockHeight - ev.Height > state.ConsensusParams.Evidence.MaxAgeNumBlocks →
      state.LastBlockTime - ev.Time ≤ state.ConsensusParams.Evidence.MaxAgeDuration →
      IsExpired state ev = false) := by
  constructor
  · simp only [IsExpired, Bool.and_eq_true, decide_eq_true_eq]
    exact and_comm
  · intro _ hd
    simp only [IsExpired, Bool.and_eq_false_iff, decide_eq_false_iff_not, not_lt]
    exact Or.inr hd

/-- Witness for C1 at `s1`/`ev1`: block-count age 95 exceeds the threshold
10 while duration age 20 stays within 50, and `IsExpired` is `false`. -/
theorem isExpired_conjunctive_witness :
    s1.LastBlockHeight - ev1.Height > s1.ConsensusParams.Evidence.MaxAgeNumBlocks ∧
    s1.LastBlockTime - ev1.Time ≤ s1.ConsensusParams.Evidence.MaxAgeDuration ∧
    IsExpired s1 ev1 = false :=
  ⟨by decide, by decide, (isExpired_conjunctive s1 ev1).2 (by decide) (by decide)⟩

/-! ### C4: Update sanity check -/

/-- C4: when the supplied state's last height differs from the block's
height, `Update` aborts (the source panics at pool.go:103 before touching
the pool), producing no updated pool at all: the state snapshot, the
store, and the evidence list are never replaced. -/
theorem update_mismatched_heights_panics (env : Env) (evpool : Pool) (block : Block)
    (state : State) (h : state.LastBlockHeight ≠ block.Height) :
    Update env evpool block state = none := by
  simp [Update, h]

/-- Witness for C4: `s1` has last height 100 while `blockW99` has height
99, and `Update` indeed aborts. -/
theorem update_mismatched_heights_panics_witness :
    s1.LastBlockHeight ≠ blockW99.Height ∧
    Update envTriv poolTriv blockW99 s1 = none :=
  ⟨by decide, update_mismatched_heights_panics envTriv poolTriv blockW99 s1 (by decide)⟩

/-! ### Lemmas about the components of `Update` -/

theorem markEvidenceAsCommitted_valToLastHeight (evpool : Pool) (height lastBlockTime : Int)
    (evidence : List EvidenceData) :
    (MarkEvidenceAsCommitted evpool height lastBlockTime evidence).valToLastHeight =
      evpool.valToLastHeight := rfl

theorem markEvidenceAsCommitted_state (evpool : Pool) (height lastBlockTime : Int)
    (evidence : List EvidenceData) :
    (MarkEvidenceAsCommitted evpool height lastBlockTime evidence).state = evpool.state := rfl

theorem cleanupValToLastHeight_store (env : Env) (evpool : Pool) (blockHeight : Int) :
    (cleanupValToLastHeight env evpool blockHeight).store = evpool.store := by
  simp only [cleanupValToLastHeight]
  split
  · split <;> rfl
  · rfl

theorem cleanupValToLastHeight_evidenceList (env : Env) (evpool : Pool) (blockHeight : Int) :
    (cleanupValToLastHeight env evpool blockHeight).evidenceList = evpool.evidenceList := by
  simp only [cleanupValToLastHeight]
  split
  · split <;> rfl
  · rfl

theorem cleanupValToLastHeight_state (env : Env) (evpool : Pool) (blockHeight : Int) :
    (cleanupValToLastHeight env evpool blockHeight).state = evpool.state := by
  simp only [cleanupValToLastHeight]
  split
  · split <;> rfl
  · rfl

theorem cleanupValToLastHeight_frame (env : Env) (evpool : Pool) (blockHeight : Int)
    (h : blockHeight - evpool.state.ConsensusParams.Evidence.MaxAgeNumBlocks < 1 ∨
      (env.LoadValidators
        (blockHeight - evpool.state.ConsensusParams.Evidence.MaxAgeNumBlocks)).fst = false) :
    cleanupValToLastHeight env evpool blockHeight = evpool := by
  simp only [cleanupValToLastHeight]
  rcases h with h | h
  · rw [if_neg (by omega)]
  · split
    · simp [h]
    · rfl

theorem update_eq_of_heights_match (env : Env) (evpool : Pool) (block : Block)
    (state : State) (hh : state.LastBlockHeight = block.Height) :
    Update env evpool block state =
      some (cleanupValToLastHeight env
        (MarkEvidenceAsCommitted { evpool with state := state } block.Height block.Time
          block.Evidence) block.Height) := by
  simp [Update, hh]

/-! ### C10: the activity map is only touched in the failed-load branch -/

/-- C10: for a height-matching `Update`, if the cutoff is below 1 or the
validator load at the cutoff succeeds, `valToLastHeight` is unchanged;
conversely any change to it implies the cutoff was at least 1 and the
load failed. -/
theorem update_valToLastHeight_frame (env : Env) (evpool : Pool) (block : Block)
    (state : State) (hh : state.LastBlockHeight = block.Height) :
    ((block.Height - state.ConsensusParams.Evidence.MaxAgeNumBlocks < 1 ∨
      (env.LoadValidators
        (block.Height - state.ConsensusParams.Evidence.MaxAgeNumBlocks)).fst = false) →
      ∃ p2, Update env evpool block state = some p2 ∧
        p2.valToLastHeight = evpool.valToLastHeight) ∧
    (∀ p2, Update env evpool block state = some p2 →
      p2.valToLastHeight ≠ evpool.valToLastHeight →
      1 ≤ block.Height - state.ConsensusParams.Evidence.MaxAgeNumBlocks ∧
      (env.LoadValidators
        (block.Height - state.ConsensusParams.Evidence.MaxAgeNumBlocks)).fst = true) := by
  have hu := update_eq_of_heights_match env evpool block state hh
  set pool2 := MarkEvidenceAsCommitted { evpool with state := state } block.Height
    block.Time block.Evidence with hpool2
  have hst : pool2.state = state := rfl
  have hval : pool2.valToLastHeight = evpool.valToLastHeight := rfl
  constructor
  · intro hc
    refine ⟨_, hu, ?_⟩
    rw [cleanupValToLastHeight_frame env pool2 block.Height (by rw [hst]; exact hc), hval]
  · intro p2 hp2 hne
    by_contra hcon
    rw [not_and_or] at hcon
    have hframe : cleanupValToLastHeight env pool2 block.Height = pool2 := by
      apply cleanupValToLastHeight_frame
      rw [hst]
      rcases hcon with hcon | hcon
      · exact Or.inl (by omega)
      · exact Or.inr (by simpa using hcon)
    rw [hu, hframe] at hp2
    have hpe : pool2 = p2 := Option.some_inj.mp hp2
    exact hne (by rw [← hpe]; exact hval)

/-- Witness for C10: heights match, the load at the cutoff (90) succeeds,
and the activity map is unchanged. -/
theorem update_valToLastHeight_frame_witness :
    s1.LastBlockHeight = blockW100.Height ∧
    ∃ p2, Update envTriv poolTriv blockW100 s1 = some p2 ∧
      p2.valToLastHeight = poolTriv.valToLastHeight :=
  ⟨by decide,
    (update_valToLastHeight_frame envTriv poolTriv blockW100 s1 (by decide)).1 (Or.inr rfl)⟩

/-! ### C2: the pruning branch is inverted in the source -/

/-- A pool whose activity map holds `addrA` last active at height 10. -/
def poolC2 : Pool := ⟨storeEmpty, [], [("addrA", 10)], s1⟩

/-- A state at height 20 with `MaxAgeNumBlocks = 10`. -/
def stateC2 : State := ⟨20, 1000, ⟨⟨10, 50⟩⟩⟩

/-- An evidence-free block at height 20. -/
def blockC2 : Block := ⟨20, 1000, []⟩

/-- C2 fails on the code: with cutoff `20 - 10 = 10 ≥ 1`, a successful
validator load at the cutoff (which contains `addrA`), and `addrA`
recorded last active exactly at the cutoff height 10, `Update` leaves the
entry in place — the source (pool.go:237) deletes entries only inside the
`err != nil` branch of the load, never on success. -/
theorem update_cutoff_entry_survives :
    (envTriv.LoadValidators
      (blockC2.Height - stateC2.ConsensusParams.Evidence.MaxAgeNumBlocks)).fst = false ∧
    GetByAddress
      (envTriv.LoadValidators
        (blockC2.Height - stateC2.ConsensusParams.Evidence.MaxAgeNumBlocks)).snd "addrA" ≠
      none ∧
    (Update envTriv poolC2 blockC2 stateC2).map Pool.valToLastHeight =
      some [("addrA", 10)] := by
  refine ⟨rfl, by decide, ?_⟩
  decide

/-! ### C6: startup recovery -/

/-- The hashes of the expired elements of a list of evidence. -/
def expiredHashes (state : State) (evList : List EvidenceData) : List String :=
  (evList.filter (fun ev => IsExpired state ev)).map (fun ev => ev.Hash)

theorem newPoolLoop_snd (state : State) :
    ∀ (evList : List EvidenceData) (store : Store) (acc : List EvidenceData),
      (newPoolLoop state store acc evList).snd =
        acc ++ evList.filter (fun ev => !IsExpired state ev) := by
  intro evList
  induction evList with
  | nil => intro store acc; simp [newPoolLoop]
  | cons ev rest ih =>
    intro store acc
    by_cases h : IsExpired state ev
    · simp [newPoolLoop, h, ih]
    · simp [newPoolLoop, h, ih]

theorem newPoolLoop_fst (state : State) :
    ∀ (evList : List EvidenceData) (store : Store) (acc : List EvidenceData),
      (newPoolLoop state store acc evList).fst.pending =
        store.pending.filter
          (fun e => !((expiredHashes state evList).contains e.ev.Hash)) := by
  intro evList
  induction evList with
  | nil => intro store acc; simp [newPoolLoop, expiredHashes]
  | cons ev rest ih =>
    intro store acc
    by_cases h : IsExpired state ev
    · simp only [newPoolLoop, h, if_pos, ih, List.filter_filter, expiredHashes,
        List.filter_cons_of_pos, List.map_cons]
      apply List.filter_congr
      intro e _
      simp only [expiredHashes, List.contains_cons, Bool.not_or, bne]
      rw [Bool.and_comm]
    · simp only [newPoolLoop, h, if_neg, ih, expiredHashes, Bool.not_eq_true,
        List.filter_cons_of_neg]

theorem newPoolLoop_fst_committed (state : State) :
    ∀ (evList : List EvidenceData) (store : Store) (acc : List EvidenceData),
      (newPoolLoop state store acc evList).fst.committed = store.committed := by
  intro evList
  induction evList with
  | nil => intro store acc; simp [newPoolLoop]
  | cons ev rest ih =>
    intro store acc
    by_cases h : IsExpired state ev
    · simp [newPoolLoop, h, ih]
    · simp [newPoolLoop, h, ih]

/-- C6: with pairwise-distinct digests in the pending index (the store
invariant), `NewPool` pushes onto the evidence list exactly the
non-expired pending entries, in order, and deletes the pending record of
exactly the expired entries; no expired entry reaches the list. -/
theorem newPool_recovery (state : State) (store : Store) (valMap : List (String × Int))
    (hnd : (store.pending.map (fun e => e.ev.Hash)).Nodup) :
    (NewPool state store valMap).evidenceList =
      (Store.listEvidence store).filter (fun ev => !IsExpired state ev) ∧
    (NewPool state store valMap).store.pending =
      store.pending.filter (fun e => !IsExpired state e.ev) ∧
    ∀ ev ∈ (NewPool state store valMap).evidenceList, IsExpired state ev = false := by
  refine ⟨?_, ?_, ?_⟩
  · simp [NewPool, newPoolLoop_snd]
  · simp only [NewPool, newPoolLoop_fst]
    apply List.filter_congr
    intro e he
    congr 1
    rw [Bool.eq_iff_iff, List.elem_iff]
    simp only [expiredHashes, Store.listEvidence, List.filter_map, List.map_map,
      List.mem_map, List.mem_filter, Function.comp]
    constructor
    · rintro ⟨x, ⟨hx, hxe⟩, hhash⟩
      have hxeq : x = e := List.inj_on_of_nodup_map hnd hx he hhash
      rw [← hxeq]
      exact hxe
    · intro hexp
      exact ⟨e, ⟨he, hexp⟩, rfl⟩
  · intro ev hev
    simp only [NewPool, newPoolLoop_snd, List.nil_append, List.mem_filter,
      Bool.not_eq_true'] at hev
    exact hev.2

/-- A store with three non-expired pending entries and one expired one
(relative to `s1`: height 100, time 1000, thresholds 10 blocks / 50ns). -/
def storeC6 : Store :=
  ⟨[⟨⟨99, 995, "addrA", "hA", false⟩, 5⟩,
    ⟨⟨98, 990, "addrB", "hB", false⟩, 4⟩,
    ⟨⟨5, 90, "addrC", "hC", false⟩, 3⟩,
    ⟨⟨97, 985, "addrD", "hD", false⟩, 2⟩], [], []⟩

/-- Witness for C6 on `storeC6`: hashes are distinct, the recovery loop
keeps the three fresh entries and drops the expired third one. -/
theorem newPool_recovery_witness :
    (storeC6.pending.map (fun e => e.ev.Hash)).Nodup ∧
    (NewPool s1 storeC6 []).evidenceList =
      (Store.listEvidence storeC6).filter (fun ev => !IsExpired s1 ev) ∧
    (NewPool s1 storeC6 []).store.pending =
      storeC6.pending.filter (fun e => !IsExpired s1 e.ev) :=
  ⟨by decide,
    (newPool_recovery s1 storeC6 [] (by decide)).1,
    (newPool_recovery s1 storeC6 [] (by decide)).2.1⟩

/-! ### Lemmas about the pending-index insertion and the store -/

theorem mem_insertPending (e x : StoreEntry) :
    ∀ l : List StoreEntry, x ∈ insertPending e l ↔ x = e ∨ x ∈ l := by
  intro l
  induction l with
  | nil => simp [insertPending]
  | cons y ys ih =>
    by_cases h : e.priority ≤ y.priority
    · simp only [insertPending, if_pos h, List.mem_cons, ih]
      tauto
    · simp only [insertPending, if_neg h, List.mem_cons]

theorem pairwise_insertPending (e : StoreEntry) :
    ∀ l : List StoreEntry,
      List.Pairwise (fun a b => b.priority ≤ a.priority) l →
      List.Pairwise (fun a b => b.priority ≤ a.priority)
        (insertPending e l) := by
  intro l
  induction l with
  | nil => intro _; simp [insertPending]
  | cons y ys ih =>
    intro hp
    rw [List.pairwise_cons] at hp
    by_cases h : e.priority ≤ y.priority
    · rw [insertPending, if_pos h, List.pairwise_cons]
      refine ⟨?_, ih hp.2⟩
      intro b hb
      rcases (mem_insertPending e b ys).mp hb with hb | hb
      · rw [hb]; exact h
      · exact hp.1 b hb
    · rw [insertPending, if_neg h, List.pairwise_cons]
      refine ⟨?_, List.pairwise_cons.mpr hp⟩
      intro b hb
      rcases List.mem_cons.mp hb with hb | hb
      · rw [hb]; omega
      · exact le_trans (hp.1 b hb) (by omega)

theorem store_addEvidence_ok (s : Store) (evidence : EvidenceData) (priority : Int)
    (s2 : Store) :
    Store.addEvidence s evidence priority = Except.ok s2 ↔
      (Store.Has s evidence = false ∧
        s2 = { s with
          pending := insertPending ⟨evidence, priority⟩ s.pending
          outqueue := evidence.Hash :: s.outqueue }) := by
  unfold Store.addEvidence
  by_cases h : Store.Has s evidence
  · simp [h]
  · rw [if_neg h]
    simp only [Bool.not_eq_true] at h
    constructor
    · intro he
      injection he with he2
      exact ⟨h, he2.symm⟩
    · rintro ⟨-, rfl⟩
      rfl

/-! ### Lemmas about one iteration of the AddEvidence loop -/

theorem addEvidenceVerified_ok (env : Env) (state : State) (valSet : ValidatorSet)
    (evpool : Pool) (ev : EvidenceData) (header : Option Header) (pool2 : Pool)
    (h : addEvidenceVerified env state valSet evpool ev header = AddResult.ok pool2) :
    ∃ val, GetByAddress valSet ev.Address = some val ∧
      Store.Has evpool.store ev = false ∧
      pool2.store.pending = insertPending ⟨ev, val.VotingPower⟩ evpool.store.pending ∧
      pool2.store.committed = evpool.store.committed ∧
      pool2.evidenceList = evpool.evidenceList ++ [ev] ∧
      pool2.valToLastHeight = evpool.valToLastHeight ∧
      pool2.state = evpool.state := by
  unfold addEvidenceVerified at h
  split at h
  · split at h
    · cases h
    · rename_i val hga
      split at h
      · cases h
      · rename_i store2 hse
        cases h
        obtain ⟨hhas, hst⟩ := (store_addEvidence_ok _ _ _ _).mp hse
        exact ⟨val, hga, hhas, by rw [hst], by rw [hst], rfl, rfl, rfl⟩
  · cases h

theorem addEvidenceVerified_abnormal_frame (env : Env) (state : State)
    (valSet : ValidatorSet) (evpool : Pool) (ev : EvidenceData) (header : Option Header) :
    (∀ e pool2, addEvidenceVerified env state valSet evpool ev header =
      AddResult.err e pool2 → pool2 = evpool) ∧
    (∀ pool2, addEvidenceVerified env state valSet evpool ev header =
      AddResult.nilDeref pool2 → pool2 = evpool) := by
  constructor
  · intro e pool2 h
    unfold addEvidenceVerified at h
    split at h
    · split at h
      · cases h
      · split at h
        · cases h; rfl
        · cases h
    · cases h; rfl
  · intro pool2 h
    unfold addEvidenceVerified at h
    split at h
    · split at h
      · cases h; rfl
      · split at h
        · cases h
        · cases h
    · cases h

theorem addEvidenceUnit_ok (env : Env) (state : State) (origEvidence : EvidenceData)
    (valSet : ValidatorSet) (evpool : Pool) (ev : EvidenceData) (pool2 : Pool)
    (h : addEvidenceUnit env state origEvidence valSet evpool ev = AddResult.ok pool2) :
    ∃ val, GetByAddress valSet ev.Address = some val ∧
      pool2.store.pending = insertPending ⟨ev, val.VotingPower⟩ evpool.store.pending ∧
      pool2.store.committed = evpool.store.committed ∧
      pool2.evidenceList = evpool.evidenceList ++ [ev] ∧
      pool2.valToLastHeight = evpool.valToLastHeight ∧
      pool2.state = evpool.state := by
  unfold addEvidenceUnit at h
  split at h
  · cases h
  · split at h
    · split at h
      · cases h
      · obtain ⟨val, h1, _, h3, h4, h5, h6, h7⟩ :=
          addEvidenceVerified_ok env state valSet evpool ev _ pool2 h
        exact ⟨val, h1, h3, h4, h5, h6, h7⟩
    · obtain ⟨val, h1, _, h3, h4, h5, h6, h7⟩ :=
        addEvidenceVerified_ok env state valSet evpool ev none pool2 h
      exact ⟨val, h1, h3, h4, h5, h6, h7⟩

theorem addEvidenceUnit_abnormal_frame (env : Env) (state : State)
    (origEvidence : EvidenceData) (valSet : ValidatorSet) (evpool : Pool)
    (ev : EvidenceData) :
    (∀ e pool2, addEvidenceUnit env state origEvidence valSet evpool ev =
      AddResult.err e pool2 → pool2 = evpool) ∧
    (∀ pool2, addEvidenceUnit env state origEvidence valSet evpool ev =
      AddResult.nilDeref pool2 → pool2 = evpool) := by
  constructor
  · intro e pool2 h
    unfold addEvidenceUnit at h
    split at h
    · cases h; rfl
    · split at h
      · split at h
        · cases h; rfl
        · exact (addEvidenceVerified_abnormal_frame env state valSet evpool ev _).1 e pool2 h
      · exact (addEvidenceVerified_abnormal_frame env state valSet evpool ev none).1 e pool2 h
  · intro pool2 h
    unfold addEvidenceUnit at h
    split at h
    · cases h
    · split at h
      · split at h
        · cases h
        · exact (addEvidenceVerified_abnormal_frame env state valSet evpool ev _).2 pool2 h
      · exact (addEvidenceVerified_abnormal_frame env state valSet evpool ev none).2 pool2 h

/-! ### Lemmas about the AddEvidence loop -/

theorem addEvidenceList_ok_mem (env : Env) (state : State) (origEvidence : EvidenceData)
    (valSet : ValidatorSet) :
    ∀ (l : List EvidenceData) (evpool pool2 : Pool),
      addEvidenceList env state origEvidence valSet evpool l = AddResult.ok pool2 →
      (∀ x ∈ evpool.store.pending, x ∈ pool2.store.pending) ∧
      (∀ x ∈ evpool.evidenceList, x ∈ pool2.evidenceList) ∧
      (∀ d ∈ l, (∃ entry ∈ pool2.store.pending, entry.ev = d) ∧ d ∈ pool2.evidenceList) := by
  intro l
  induction l with
  | nil =>
    intro evpool pool2 h
    cases h
    exact ⟨fun x hx => hx, fun x hx => hx, by simp⟩
  | cons ev rest ih =>
    intro evpool pool2 h
    rw [addEvidenceList] at h
    cases hu : addEvidenceUnit env state origEvidence valSet evpool ev with
    | ok p1 =>
      rw [hu] at h
      obtain ⟨val, hga, hpend, hcomm, hlist, _, _⟩ :=
        addEvidenceUnit_ok env state origEvidence valSet evpool ev p1 hu
      obtain ⟨m1, m2, m3⟩ := ih p1 pool2 h
      refine ⟨?_, ?_, ?_⟩
      · intro x hx
        apply m1
        rw [hpend]
        exact (mem_insertPending _ x _).mpr (Or.inr hx)
      · intro x hx
        apply m2
        rw [hlist]
        exact List.mem_append_left _ hx
      · intro d hd
        rcases List.mem_cons.mp hd with rfl | hd
        · constructor
          · refine ⟨⟨d, val.VotingPower⟩, m1 _ ?_, rfl⟩
            rw [hpend]
            exact (mem_insertPending _ _ _).mpr (Or.inl rfl)
          · apply m2
            rw [hlist]
            exact List.mem_append_right _ (by simp)
        · exact m3 d hd
    | err e p => rw [hu] at h; cases h
    | nilDeref p => rw [hu] at h; cases h

theorem addEvidenceList_ok_priority (env : Env) (state : State)
    (origEvidence : EvidenceData) (valSet : ValidatorSet) :
    ∀ (l : List EvidenceData) (evpool pool2 : Pool),
      addEvidenceList env state origEvidence valSet evpool l = AddResult.ok pool2 →
      ∀ entry ∈ pool2.store.pending, entry ∈ evpool.store.pending ∨
        ∃ val, GetByAddress valSet entry.ev.Address = some val ∧
          entry.priority = val.VotingPower := by
  intro l
  induction l with
  | nil =>
    intro evpool pool2 h
    cases h
    exact fun entry he => Or.inl he
  | cons ev rest ih =>
    intro evpool pool2 h
    rw [addEvidenceList] at h
    cases hu : addEvidenceUnit env state origEvidence valSet evpool ev with
    | ok p1 =>
      rw [hu] at h
      obtain ⟨val, hga, hpend, _, _, _, _⟩ :=
        addEvidenceUnit_ok env state origEvidence valSet evpool ev p1 hu
      intro entry he
      rcases ih p1 pool2 h entry he with hin | hnew
      · rw [hpend] at hin
        rcases (mem_insertPending _ _ _).mp hin with rfl | hin
        · exact Or.inr ⟨val, hga, rfl⟩
        · exact Or.inl hin
      · exact Or.inr hnew
    | err e p => rw [hu] at h; cases h
    | nilDeref p => rw [hu] at h; cases h

theorem addEvidenceList_ok_sorted (env : Env) (state : State)
    (origEvidence : EvidenceData) (valSet : ValidatorSet) :
    ∀ (l : List EvidenceData) (evpool pool2 : Pool),
      addEvidenceList env state origEvidence valSet evpool l = AddResult.ok pool2 →
      List.Pairwise (fun a b => b.priority ≤ a.priority) evpool.store.pending →
      List.Pairwise (fun a b => b.priority ≤ a.priority) pool2.store.pending := by
  intro l
  induction l with
  | nil =>
    intro evpool pool2 h hs
    cases h
    exact hs
  | cons ev rest ih =>
    intro evpool pool2 h hs
    rw [addEvidenceList] at h
    cases hu : addEvidenceUnit env state origEvidence valSet evpool ev with
    | ok p1 =>
      rw [hu] at h
      obtain ⟨val, _, hpend, _, _, _, _⟩ :=
        addEvidenceUnit_ok env state origEvidence valSet evpool ev p1 hu
      exact ih p1 pool2 h (by rw [hpend]; exact pairwise_insertPending _ _ hs)
    | err e p => rw [hu] at h; cases h
    | nilDeref p => rw [hu] at h; cases h

theorem addEvidence_ok_toList (env : Env) (evpool : Pool) (evidence : Evidence)
    (pool2 : Pool) (h : AddEvidence env evpool evidence = AddResult.ok pool2) :
    ∃ l, addEvidenceList env evpool.state evidence.data
        (env.LoadValidators evidence.data.Height).snd evpool l = AddResult.ok pool2 := by
  cases evidence with
  | atomic d =>
    simp only [AddEvidence] at h
    split at h
    · cases h
    · exact ⟨[d], h⟩
  | composite d pieces =>
    simp only [AddEvidence] at h
    split at h
    · cases h
    · split at h
      · cases h
      · split at h
        · exact ⟨pieces, h⟩
        · cases h

/-! ### C7: priority and pending order -/

theorem sublist_insertPending (e : StoreEntry) :
    ∀ l : List StoreEntry, l.Sublist (insertPending e l) := by
  intro l
  induction l with
  | nil => exact List.nil_sublist _
  | cons x xs ih =>
    by_cases h : e.priority ≤ x.priority
    · rw [insertPending, if_pos h]
      exact List.Sublist.cons₂ x ih
    · rw [insertPending, if_neg h]
      exact List.Sublist.cons e (List.Sublist.refl _)

theorem insertPending_after_ties (e : StoreEntry) :
    ∀ l : List StoreEntry,
      List.Pairwise (fun a b => b.priority ≤ a.priority) l →
      ∃ l₁ l₂, l = l₁ ++ l₂ ∧ insertPending e l = l₁ ++ e :: l₂ ∧
        (∀ x ∈ l₁, e.priority ≤ x.priority) ∧ (∀ x ∈ l₂, x.priority < e.priority) := by
  intro l
  induction l with
  | nil => intro _; exact ⟨[], [], rfl, rfl, by simp, by simp⟩
  | cons x xs ih =>
    intro hp
    rw [List.pairwise_cons] at hp
    by_cases h : e.priority ≤ x.priority
    · obtain ⟨l₁, l₂, h1, h2, h3, h4⟩ := ih hp.2
      refine ⟨x :: l₁, l₂, ?_, ?_, ?_, h4⟩
      · rw [List.cons_append, ← h1]
      · rw [insertPending, if_pos h, h2, List.cons_append]
      · intro y hy
        rcases List.mem_cons.mp hy with rfl | hy
        · exact h
        · exact h3 y hy
    · refine ⟨[], x :: xs, rfl, ?_, by simp, ?_⟩
      · rw [insertPending, if_neg h, List.nil_append]
      · intro y hy
        rcases List.mem_cons.mp hy with rfl | hy
        · omega
        · have := hp.1 y hy
          omega

theorem addEvidenceList_ok_foldl (env : Env) (state : State)
    (origEvidence : EvidenceData) (valSet : ValidatorSet) :
    ∀ (l : List EvidenceData) (evpool pool2 : Pool),
      addEvidenceList env state origEvidence valSet evpool l = AddResult.ok pool2 →
      ∃ newEntries : List StoreEntry,
        pool2.store.pending =
          newEntries.foldl (fun acc e => insertPending e acc) evpool.store.pending ∧
        ∀ e ∈ newEntries, ∃ val, GetByAddress valSet e.ev.Address = some val ∧
          e.priority = val.VotingPower := by
  intro l
  induction l with
  | nil =>
    intro evpool pool2 h
    cases h
    exact ⟨[], rfl, by simp⟩
  | cons ev rest ih =>
    intro evpool pool2 h
    rw [addEvidenceList] at h
    cases hu : addEvidenceUnit env state origEvidence valSet evpool ev with
    | ok p1 =>
      rw [hu] at h
      obtain ⟨val, hga, hpend, _, _, _, _⟩ :=
        addEvidenceUnit_ok env state origEvidence valSet evpool ev p1 hu
      obtain ⟨newEntries, hfold, hprop⟩ := ih p1 pool2 h
      refine ⟨⟨ev, val.VotingPower⟩ :: newEntries, ?_, ?_⟩
      · rw [hfold]
        simp only [List.foldl_cons]
        rw [← hpend]
      · intro e he
        rcases List.mem_cons.mp he with rfl | he
        · exact ⟨val, hga, rfl⟩
        · exact hprop e he
    | err e p => rw [hu] at h; cases h
    | nilDeref p => rw [hu] at h; cases h

theorem addEvidenceList_ok_sublist (env : Env) (state : State)
    (origEvidence : EvidenceData) (valSet : ValidatorSet) :
    ∀ (l : List EvidenceData) (evpool pool2 : Pool),
      addEvidenceList env state origEvidence valSet evpool l = AddResult.ok pool2 →
      evpool.store.pending.Sublist pool2.store.pending := by
  intro l
  induction l with
  | nil =>
    intro evpool pool2 h
    cases h
    exact List.Sublist.refl _
  | cons ev rest ih =>
    intro evpool pool2 h
    rw [addEvidenceList] at h
    cases hu : addEvidenceUnit env state origEvidence valSet evpool ev with
    | ok p1 =>
      rw [hu] at h
      obtain ⟨val, _, hpend, _, _, _, _⟩ :=
        addEvidenceUnit_ok env state origEvidence valSet evpool ev p1 hu
      refine List.Sublist.trans ?_ (ih p1 pool2 h)
      rw [hpend]
      exact sublist_insertPending _ _
    | err e p => rw [hu] at h; cases h
    | nilDeref p => rw [hu] at h; cases h

/-- C7: for a successful `AddEvidence` on a pool whose pending index is
ordered (descending priority, the store invariant), (a) every newly
stored entry carries as priority the voting power the loaded validator
set (at the height of the submitted evidence) assigns to the accused address;
(b) `PendingEvidence (-1)` returns the whole pending index in order; (c)
in it any strictly higher-priority entry comes strictly earlier; (d) the
old index is a subsequence of the new one, so pre-existing equal-priority
entries keep their relative insertion order; (e) the new index is exactly
the entries of this call, in processing order, inserted one by one by
`insertPending` (with the priority property of (a)); and (f) each such
insertion places its entry after every entry of equal-or-higher priority
already present and before every strictly-lower one — hence equal
priorities are returned in insertion order. -/
theorem addEvidence_priority_and_order (env : Env) (evpool : Pool) (evidence : Evidence)
    (pool2 : Pool)
    (hsorted : List.Pairwise (fun a b => b.priority ≤ a.priority) evpool.store.pending)
    (hadd : AddEvidence env evpool evidence = AddResult.ok pool2) :
    (∀ entry ∈ pool2.store.pending, entry ∈ evpool.store.pending ∨
      ∃ val, GetByAddress (env.LoadValidators (Evidence.data evidence).Height).snd
          entry.ev.Address = some val ∧
        entry.priority = val.VotingPower) ∧
    Store.PendingEvidence pool2.store (-1) = pool2.store.pending.map (fun e => e.ev) ∧
    (∀ i j : Fin pool2.store.pending.length,
      (pool2.store.pending.get j).priority < (pool2.store.pending.get i).priority →
      (i : Nat) < (j : Nat)) ∧
    evpool.store.pending.Sublist pool2.store.pending ∧
    (∃ newEntries : List StoreEntry,
      pool2.store.pending =
        newEntries.foldl (fun acc e => insertPending e acc) evpool.store.pending ∧
      ∀ e ∈ newEntries, ∃ val,
        GetByAddress (env.LoadValidators (Evidence.data evidence).Height).snd
          e.ev.Address = some val ∧ e.priority = val.VotingPower) ∧
    (∀ (e : StoreEntry) (l : List StoreEntry),
      List.Pairwise (fun a b => b.priority ≤ a.priority) l →
      ∃ l₁ l₂, l = l₁ ++ l₂ ∧ insertPending e l = l₁ ++ e :: l₂ ∧
        (∀ x ∈ l₁, e.priority ≤ x.priority) ∧ (∀ x ∈ l₂, x.priority < e.priority)) := by
  obtain ⟨l, hl⟩ := addEvidence_ok_toList env evpool evidence pool2 hadd
  refine ⟨addEvidenceList_ok_priority env evpool.state evidence.data _ l evpool pool2 hl,
    ?_, ?_,
    addEvidenceList_ok_sublist env evpool.state evidence.data _ l evpool pool2 hl,
    addEvidenceList_ok_foldl env evpool.state evidence.data _ l evpool pool2 hl,
    fun e l2 hp => insertPending_after_ties e l2 hp⟩
  · rw [Store.PendingEvidence, if_pos (by norm_num)]
  · have hs2 := addEvidenceList_ok_sorted env evpool.state evidence.data _ l evpool pool2
      hl hsorted
    intro i j hij
    rcases lt_trichotomy (i : Nat) (j : Nat) with h | h | h
    · exact h
    · exfalso
      have hieq : i = j := Fin.ext h
      rw [hieq] at hij
      omega
    · exfalso
      have hle := List.pairwise_iff_get.mp hs2 j i (Fin.lt_def.mpr h)
      omega

/-- Fresh, non-lunatic evidence at height 100 by validator `addrA`. -/
def evA : EvidenceData := ⟨100, 1000, "addrA", "hX", false⟩

/-- The pool after `AddEvidence envTriv poolTriv (atomic evA)` succeeds. -/
def poolAfterA : Pool := ⟨⟨[⟨evA, 7⟩], [], ["hX"]⟩, [evA], [], s1⟩

/-- An older pending entry with the same priority (7) as `evA` will get. -/
def evOld : EvidenceData := ⟨99, 995, "addrA", "hOld", false⟩

/-- A pool already holding `evOld` as pending with priority 7. -/
def poolOld : Pool := ⟨⟨[⟨evOld, 7⟩], [], ["hOld"]⟩, [evOld], [], s1⟩

/-- The pool after adding `evA` to `poolOld`: the new equal-priority entry
lands after the pre-existing one. -/
def poolAfterTie : Pool :=
  ⟨⟨[⟨evOld, 7⟩, ⟨evA, 7⟩], [], ["hX", "hOld"]⟩, [evOld, evA], [], s1⟩

/-- Witness for C7: adding `evA` (priority 7) to a pool already holding an
equal-priority entry succeeds, keeps the old index as a prefix
(subsequence), and `PendingEvidence (-1)` returns the index in order —
the tie is resolved by insertion order. -/
theorem addEvidence_priority_and_order_witness :
    AddEvidence envTriv poolOld (Evidence.atomic evA) = AddResult.ok poolAfterTie ∧
    poolOld.store.pending.Sublist poolAfterTie.store.pending ∧
    Store.PendingEvidence poolAfterTie.store (-1) =
      poolAfterTie.store.pending.map (fun e => e.ev) :=
  ⟨by decide,
    (addEvidence_priority_and_order envTriv poolOld (Evidence.atomic evA) poolAfterTie
      (by simp [poolOld]) (by decide)).2.2.2.1,
    (addEvidence_priority_and_order envTriv poolOld (Evidence.atomic evA) poolAfterTie
      (by simp [poolOld]) (by decide)).2.1⟩

theorem addEvidenceList_append (env : Env) (state : State) (origEvidence : EvidenceData)
    (valSet : ValidatorSet) :
    ∀ (l1 l2 : List EvidenceData) (evpool : Pool),
      addEvidenceList env state origEvidence valSet evpool (l1 ++ l2) =
        match addEvidenceList env state origEvidence valSet evpool l1 with
        | AddResult.ok pool1 => addEvidenceList env state origEvidence valSet pool1 l2
        | r => r := by
  intro l1
  induction l1 with
  | nil => intro l2 evpool; rfl
  | cons ev rest ih =>
    intro l2 evpool
    cases hu : addEvidenceUnit env state origEvidence valSet evpool ev with
    | ok pool2 =>
      have hL : addEvidenceList env state origEvidence valSet evpool ((ev :: rest) ++ l2) =
          addEvidenceList env state origEvidence valSet pool2 (rest ++ l2) := by
        rw [List.cons_append, addEvidenceList, hu]
      have hR : addEvidenceList env state origEvidence valSet evpool (ev :: rest) =
          addEvidenceList env state origEvidence valSet pool2 rest := by
        rw [addEvidenceList, hu]
      rw [hL, hR, ih]
    | err e p =>
      have hL : addEvidenceList env state origEvidence valSet evpool ((ev :: rest) ++ l2) =
          AddResult.err e p := by
        rw [List.cons_append, addEvidenceList, hu]
      have hR : addEvidenceList env state origEvidence valSet evpool (ev :: rest) =
          AddResult.err e p := by
        rw [addEvidenceList, hu]
      rw [hL, hR]
    | nilDeref p =>
      have hL : addEvidenceList env state origEvidence valSet evpool ((ev :: rest) ++ l2) =
          AddResult.nilDeref p := by
        rw [List.cons_append, addEvidenceList, hu]
      have hR : addEvidenceList env state origEvidence valSet evpool (ev :: rest) =
          AddResult.nilDeref p := by
        rw [addEvidenceList, hu]
      rw [hL, hR]

/-! ### C8: no rollback of earlier units -/

/-- C8: for a composite submission whose unit list is `pre ++ u :: rest`,
if every unit of `pre` succeeds (yielding pool `p1`) and processing `u`
on `p1` fails with error `e`, then `AddEvidence` returns exactly that
error immediately, the pool is left at `p1` (the failing unit mutates
nothing), and every unit of `pre` is still in the pending store and the
broadcast list — nothing is rolled back. -/
theorem addEvidence_no_rollback (env : Env) (evpool : Pool) (d : EvidenceData)
    (pre : List EvidenceData) (u : EvidenceData) (rest : List EvidenceData)
    (bm : Header) (p1 p2 : Pool) (e : AddError)
    (hlv : (env.LoadValidators d.Height).fst = false)
    (hbm : env.LoadBlockMeta d.Height = some bm)
    (hvc : env.VerifyComposite bm (env.LoadValidators d.Height).snd = true)
    (hpre : addEvidenceList env evpool.state d (env.LoadValidators d.Height).snd evpool pre
      = AddResult.ok p1)
    (hu : addEvidenceUnit env evpool.state d (env.LoadValidators d.Height).snd p1 u =
      AddResult.err e p2) :
    AddEvidence env evpool (Evidence.composite d (pre ++ u :: rest)) =
      AddResult.err e p2 ∧
    p2 = p1 ∧
    ∀ x ∈ pre, (∃ entry ∈ p1.store.pending, entry.ev = x) ∧ x ∈ p1.evidenceList := by
  have hp21 : p2 = p1 :=
    (addEvidenceUnit_abnormal_frame env evpool.state d
      (env.LoadValidators d.Height).snd p1 u).1 e p2 hu
  refine ⟨?_, hp21,
    (addEvidenceList_ok_mem env evpool.state d
      (env.LoadValidators d.Height).snd pre evpool p1 hpre).2.2⟩
  have hstep : AddEvidence env evpool (Evidence.composite d (pre ++ u :: rest)) =
      addEvidenceList env evpool.state d (env.LoadValidators d.Height).snd evpool
        (pre ++ u :: rest) := by
    simp [AddEvidence, Evidence.data, hlv, hbm, hvc]
  rw [hstep, addEvidenceList_append, hpre]
  show addEvidenceList env evpool.state d (env.LoadValidators d.Height).snd p1
    (u :: rest) = AddResult.err e p2
  rw [addEvidenceList, hu]

/-- A composite submission that splits into one good and one bad unit. -/
def dC8 : EvidenceData := ⟨50, 990, "addrA", "hC8", false⟩

/-- The good first piece. -/
def evP1 : EvidenceData := ⟨50, 990, "addrA", "hP1", false⟩

/-- The piece that fails verification (digest `hBad`). -/
def evBad : EvidenceData := ⟨50, 990, "addrA", "hBad", false⟩

/-- An environment that rejects exactly the `hBad` unit. -/
def envC8 : Env :=
  { LoadValidators := fun _ => (false, valSetW)
    LoadBlockMeta := fun _ => some ⟨0⟩
    VerifyEvidence := fun _ ev _ => ev.Hash != "hBad"
    VerifyComposite := fun _ _ => true }

/-- The pool after the good first piece has been persisted and broadcast. -/
def p1C8 : Pool := ⟨⟨[⟨evP1, 7⟩], [], ["hP1"]⟩, [evP1], [], s1⟩

/-- Witness for C8: processing `[evP1] ++ evBad :: []` persists `evP1`,
fails on `evBad` with a verification error, and returns it. -/
theorem addEvidence_no_rollback_witness :
    addEvidenceList envC8 poolTriv.state dC8 (envC8.LoadValidators dC8.Height).snd
      poolTriv [evP1] = AddResult.ok p1C8 ∧
    addEvidenceUnit envC8 poolTriv.state dC8 (envC8.LoadValidators dC8.Height).snd
      p1C8 evBad = AddResult.err AddError.errVerifyFailed p1C8 ∧
    AddEvidence envC8 poolTriv (Evidence.composite dC8 ([evP1] ++ evBad :: [])) =
      AddResult.err AddError.errVerifyFailed p1C8 :=
  ⟨by decide, by decide,
    (addEvidence_no_rollback envC8 poolTriv dC8 [evP1] evBad [] ⟨0⟩ p1C8 p1C8
      AddError.errVerifyFailed rfl rfl rfl (by decide) (by decide)).1⟩

/-! ### C9: the priority lookup has an unchecked precondition -/

/-- C9: for a unit that passes the duplicate check and verification, the
priority step dereferences the validator returned by `GetByAddress`
without a nil check (pool.go:177-178): when the accused address is absent
from the validator set loaded at the submitted evidence's height the call
hits a nil dereference (embedded as `nilDeref`), and when it is present
the call never does. -/
theorem addEvidence_priority_nil_deref (env : Env) (evpool : Pool) (d u : EvidenceData)
    (bm : Header)
    (hlv : (env.LoadValidators d.Height).fst = false)
    (hbm : env.LoadBlockMeta d.Height = some bm)
    (hvc : env.VerifyComposite bm (env.LoadValidators d.Height).snd = true)
    (hhas : Store.Has evpool.store d = false)
    (hlun : u.isLunatic = false)
    (hver : env.VerifyEvidence evpool.state u none = true) :
    (GetByAddress (env.LoadValidators d.Height).snd u.Address = none →
      AddEvidence env evpool (Evidence.composite d [u]) = AddResult.nilDeref evpool) ∧
    (∀ val, GetByAddress (env.LoadValidators d.Height).snd u.Address = some val →
      ∀ q, AddEvidence env evpool (Evidence.composite d [u]) ≠ AddResult.nilDeref q) := by
  have hstep : AddEvidence env evpool (Evidence.composite d [u]) =
      addEvidenceList env evpool.state d (env.LoadValidators d.Height).snd evpool [u] := by
    simp [AddEvidence, Evidence.data, hlv, hbm, hvc]
  constructor
  · intro hga
    have hunit : addEvidenceUnit env evpool.state d
        (env.LoadValidators d.Height).snd evpool u = AddResult.nilDeref evpool := by
      unfold addEvidenceUnit addEvidenceVerified
      rw [if_neg (by simp [hhas]), if_neg (by simp [hlun]), if_pos hver, hga]
    rw [hstep, addEvidenceList, hunit]
  · intro val hga q hcontra
    have hunit : addEvidenceUnit env evpool.state d
        (env.LoadValidators d.Height).snd evpool u =
        (match Store.addEvidence evpool.store u val.VotingPower with
          | Except.error _ => AddResult.err AddError.errDatabase evpool
          | Except.ok store2 =>
            AddResult.ok
              { evpool with
                store := store2
                evidenceList := evpool.evidenceList ++ [u] }) := by
      unfold addEvidenceUnit addEvidenceVerified
      rw [if_neg (by simp [hhas]), if_neg (by simp [hlun]), if_pos hver, hga]
    cases hse : Store.addEvidence evpool.store u val.VotingPower with
    | error e2 =>
      rw [hse] at hunit
      rw [hstep, addEvidenceList, hunit] at hcontra
      cases hcontra
    | ok store2 =>
      rw [hse] at hunit
      rw [hstep, addEvidenceList, hunit] at hcontra
      cases hcontra

/-- A unit attributed to a signer outside the loaded validator set. -/
def evOut : EvidenceData := ⟨50, 990, "addrX", "hOut", false⟩

/-- The composite wrapper for the out-of-set unit. -/
def dC9 : EvidenceData := ⟨50, 990, "addrA", "hC9", false⟩

/-- Witness for C9: `addrX` is not in `valSetW`, and the call ends in the
nil dereference. -/
theorem addEvidence_priority_nil_deref_witness :
    GetByAddress (envTriv.LoadValidators dC9.Height).snd evOut.Address = none ∧
    AddEvidence envTriv poolTriv (Evidence.composite dC9 [evOut]) =
      AddResult.nilDeref poolTriv :=
  ⟨by decide,
    (addEvidence_priority_nil_deref envTriv poolTriv dC9 evOut ⟨0⟩ rfl rfl rfl
      (by decide) rfl rfl).1 (by decide)⟩

/-! ### C3: the duplicate check tests the wrong value -/

/-- A unit already pending in the store. -/
def evU : EvidenceData := ⟨50, 990, "addrA", "hU", false⟩

/-- A composite submission whose split yields exactly the already-stored
unit `evU`. -/
def dC3 : EvidenceData := ⟨50, 990, "addrA", "hC3", false⟩

/-- A store already holding `evU` as pending. -/
def storeC3 : Store := ⟨[⟨evU, 7⟩], [], ["hU"]⟩

/-- The pool holding `evU`. -/
def poolC3 : Pool := ⟨storeC3, [evU], [], s1⟩

/-- C3 fails on the code: the store already holds the split unit `evU`,
yet `AddEvidence` on a composite splitting into `[evU]` does not return
the already-stored error — pool.go:153 calls `Has` on the originally
submitted `evidence` (digest `hC3`, absent) instead of the loop unit
`ev`, so the duplicate is only caught by the store write, surfacing as a
database error. -/
theorem addEvidence_split_duplicate_not_already_stored :
    Store.Has poolC3.store evU = true ∧
    AddEvidence envTriv poolC3 (Evidence.composite dC3 [evU]) =
      AddResult.err AddError.errDatabase poolC3 :=
  ⟨by decide, by decide⟩

/-! ### C5: committing removes evidence from the pending paths -/

theorem foldlMark_pending (evs : List EvidenceData) :
    ∀ (s : Store) (entry : StoreEntry),
      entry ∈ (evs.foldl (fun s ev => Store.MarkEvidenceAsCommitted s ev) s).pending →
      entry ∈ s.pending ∧ ∀ ev ∈ evs, entry.ev.Hash ≠ ev.Hash := by
  induction evs with
  | nil => intro s entry he; exact ⟨he, by simp⟩
  | cons ev rest ih =>
    intro s entry he
    rw [List.foldl_cons] at he
    obtain ⟨h1, h2⟩ := ih (Store.MarkEvidenceAsCommitted s ev) entry he
    simp only [Store.MarkEvidenceAsCommitted, List.mem_filter, bne_iff_ne, ne_eq] at h1
    refine ⟨h1.1, ?_⟩
    intro ev2 hev2
    rcases List.mem_cons.mp hev2 with rfl | hev2
    · exact h1.2
    · exact h2 ev2 hev2

theorem foldlMark_committed_mono (evs : List EvidenceData) :
    ∀ (s : Store) (x : String), x ∈ s.committed →
      x ∈ (evs.foldl (fun s ev => Store.MarkEvidenceAsCommitted s ev) s).committed := by
  induction evs with
  | nil => intro s x hx; exact hx
  | cons ev rest ih =>
    intro s x hx
    rw [List.foldl_cons]
    exact ih (Store.MarkEvidenceAsCommitted s ev) x (List.mem_cons_of_mem _ hx)

theorem foldlMark_committed_mem (evs : List EvidenceData) :
    ∀ (U : EvidenceData), U ∈ evs → ∀ s : Store,
      U.Hash ∈ (evs.foldl (fun s ev => Store.MarkEvidenceAsCommitted s ev) s).committed := by
  induction evs with
  | nil => intro U hU; cases hU
  | cons ev rest ih =>
    intro U hU s
    rw [List.foldl_cons]
    rcases List.mem_cons.mp hU with rfl | hU2
    · exact foldlMark_committed_mono rest _ _ (List.mem_cons_self _ _)
    · exact ih U hU2 _

/-- C5: for a height-matching `Update` on a block containing unit `U`,
the updated pool's `PendingEvidence (-1)` holds nothing with `U`'s
digest, `U` is gone from the broadcast list, and a subsequent
`AddEvidence` of `U` (with the validator load succeeding) returns the
already-stored error, leaving the pool untouched. -/
theorem update_commit_removes (env : Env) (evpool : Pool) (block : Block)
    (state : State) (U : EvidenceData) (hU : U ∈ block.Evidence)
    (hh : state.LastBlockHeight = block.Height)
    (hlv : (env.LoadValidators U.Height).fst = false) :
    ∃ p2, Update env evpool block state = some p2 ∧
      (∀ ev ∈ Store.PendingEvidence p2.store (-1), ev.Hash ≠ U.Hash) ∧
      (∀ ev ∈ p2.evidenceList, ev.Hash ≠ U.Hash) ∧
      AddEvidence env p2 (Evidence.atomic U) =
        AddResult.err AddError.errEvidenceAlreadyStored p2 := by
  have hupd := update_eq_of_heights_match env evpool block state hh
  set pool1 : Pool := { evpool with state := state } with hpool1
  set pool2 := MarkEvidenceAsCommitted pool1 block.Height block.Time block.Evidence
    with hpool2
  set p2 := cleanupValToLastHeight env pool2 block.Height with hp2def
  have hstore : p2.store =
      block.Evidence.foldl (fun s ev => Store.MarkEvidenceAsCommitted s ev)
        evpool.store := by
    rw [hp2def, cleanupValToLastHeight_store]
    rfl
  have hlist : p2.evidenceList =
      removeEvidence block.Height block.Time state.ConsensusParams.Evidence
        (block.Evidence.map evMapKey) evpool.evidenceList := by
    rw [hp2def, cleanupValToLastHeight_evidenceList]
    rfl
  refine ⟨p2, hupd, ?_, ?_, ?_⟩
  · intro ev hev
    rw [Store.PendingEvidence, if_pos (by norm_num)] at hev
    obtain ⟨entry, hentry, rfl⟩ := List.mem_map.mp hev
    rw [hstore] at hentry
    exact (foldlMark_pending block.Evidence evpool.store entry hentry).2 U hU
  · intro ev hev
    rw [hlist] at hev
    unfold removeEvidence at hev
    rw [List.mem_filter] at hev
    intro heq
    have hcont : (block.Evidence.map evMapKey).contains (evMapKey ev) = true := by
      apply List.elem_iff.mpr
      rw [evMapKey, heq]
      exact List.mem_map_of_mem evMapKey hU
    have := hev.2
    rw [hcont] at this
    simp at this
  · have hc : U.Hash ∈ p2.store.committed := by
      rw [hstore]
      exact foldlMark_committed_mem block.Evidence U hU evpool.store
    have hhas : Store.Has p2.store U = true := by
      simp only [Store.Has, Bool.or_eq_true]
      exact Or.inl (Or.inr (List.elem_iff.mpr hc))
    simp [AddEvidence, Evidence.data, hlv, addEvidenceList, addEvidenceUnit, hhas]

/-- The block at height 100 carrying the unit `evA`. -/
def blockU : Block := ⟨100, 1000, [evA]⟩

/-- Witness for C5: committing `blockU` over the pool holding `evA`
removes it, and re-adding it reports already-stored. -/
theorem update_commit_removes_witness :
    evA ∈ blockU.Evidence ∧ s1.LastBlockHeight = blockU.Height ∧
    ∃ p2, Update envTriv poolAfterA blockU s1 = some p2 ∧
      AddEvidence envTriv p2 (Evidence.atomic evA) =
        AddResult.err AddError.errEvidenceAlreadyStored p2 := by
  obtain ⟨p2, h1, _, _, h4⟩ :=
    update_commit_removes envTriv poolAfterA blockU s1 evA (by decide) (by decide) rfl
  exact ⟨by decide, by decide, p2, h1, h4⟩
